import Mathlib

/-!
Verification of the nestor Jenkins client (lib/jenkins.js and
lib/http/view.js) against its natural-language specification.

Strings from the JavaScript source are modelled as `String` or `List Char`;
the JavaScript regex-based string operations used by the source are modelled
by executable functions whose semantics are spelled out in their doc
comments.  Network I/O is modelled at the boundary the spec itself draws:
the HTTP helper (`bag.request`) invokes the handler registered for the
response's status code, `request.get` yields a scripted response, and the
UDP socket / timer deliver events in arrival order.
-/

/-! ## Status vocabulary (`Jenkins.prototype._colorStatus`, source lines 447-463) -/

/-- JavaScript `s.replace(pat, '')` for a literal (non-regex-special,
non-global) pattern: removes the first occurrence of `pat` in `s`, scanning
left to right; `s` is returned unchanged when `pat` does not occur.  Models
`color.replace(/_anime/, '')` at line 460. -/
def removeFirst (pat : List Char) : List Char → List Char
  | [] => []
  | c :: rest =>
    if pat.isPrefixOf (c :: rest) then (c :: rest).drop pat.length
    else c :: removeFirst pat rest

/-- The literal pattern of the `/_anime/` regex at line 460. -/
def animePat : List Char := "_anime".toList

/-- The own properties of the `STATUS` object literal of `_colorStatus`
(lines 449-455), as an association list: own-property lookup on the object
is `List.lookup` here. -/
def colorTable : List (List Char × List Char) :=
  [("blue".toList, "OK".toList),
   ("green".toList, "OK".toList),
   ("grey".toList, "ABORTED".toList),
   ("red".toList, "FAIL".toList),
   ("yellow".toList, "WARN".toList)]

/-- The property names a plain JavaScript object literal inherits from
`Object.prototype`: an access `STATUS[color]` with one of these names (and
no shadowing own property — `colorTable` shadows none of them) yields the
inherited member, which is a function (or, for `__proto__`, the prototype
object) and hence truthy. -/
def protoProps : List (List Char) :=
  ["constructor".toList, "hasOwnProperty".toList, "isPrototypeOf".toList,
   "propertyIsEnumerable".toList, "toLocaleString".toList, "toString".toList,
   "valueOf".toList, "__proto__".toList, "__defineGetter__".toList,
   "__defineSetter__".toList, "__lookupGetter__".toList, "__lookupSetter__".toList]

/-- What `_colorStatus` returns: a string (a status value or the uppercased
token), or — when the token names an inherited `Object.prototype` member —
that inherited non-string property itself, identified by its name. -/
inductive ColorResult where
  | str (s : List Char)
  | inherited (name : List Char)
  deriving DecidableEq

/-- `Jenkins.prototype._colorStatus` (lines 447-463): strip the first
occurrence of `_anime`, then `STATUS[color] || color.toUpperCase()` — the
table entry when the stripped token is an own property; the truthy
inherited `Object.prototype` member when the stripped token names one (the
property access walks the prototype chain, so `||` never falls through for
these); and otherwise `undefined || ...` falls through to the stripped
token uppercased (`Char.toUpper` agrees with JavaScript `toUpperCase` on
the ASCII tokens involved). -/
def colorStatus (color : List Char) : ColorResult :=
  let c := removeFirst animePat color
  match List.lookup c colorTable with
  | some s => ColorResult.str s
  | none =>
    if c ∈ protoProps then ColorResult.inherited c
    else ColorResult.str (c.map Char.toUpper)

/-- The claim's wording of `_colorStatus`, for comparison: it strips
`_anime` only when it occurs as a suffix of the token, then applies the
same table / uppercase fallback.  This definition follows the spec's words,
not the source. -/
def classifyClaimed (color : List Char) : List Char :=
  let c :=
    if animePat.isSuffixOf color then color.take (color.length - animePat.length)
    else color
  match List.lookup c colorTable with
  | some s => s
  | none => c.map Char.toUpper

/-! ## Dashboard aggregation (`Jenkins.prototype._dashboardStatus`, lines 465-485) -/

/-- One entry of the dashboard result: `{ status, name }` (line 236). -/
structure JobSummary where
  name : String
  status : String
  deriving DecidableEq

/-- The `STATUS` priority array of `_dashboardStatus` (line 466), most
severe first. -/
def statusPriority : List String := ["FAIL", "WARN", "ABORTED", "OK"]

/-- The `for`-loop of `_dashboardStatus` (lines 477-482): the first entry
of the priority list present in `uniq`, else `null`. -/
def firstPresent : List String → List String → Option String
  | [], _ => none
  | s :: rest, uniq => if s ∈ uniq then some s else firstPresent rest uniq

/-- The filter of `_dashboardStatus` (lines 468-472): when a job name is
given, keep the items whose `name` equals it. -/
def dashboardFiltered (jobName : Option String) (data : List JobSummary) :
    List JobSummary :=
  match jobName with
  | some n => data.filter (fun item => item.name == n)
  | none => data

/-- `Jenkins.prototype._dashboardStatus` (lines 465-485): filter by the
optional job name, take the distinct statuses (`_.uniq(_.pluck(data,
'status'))`), and return the first priority entry present, else `null`. -/
def dashboardStatus (jobName : Option String) (data : List JobSummary) :
    Option String :=
  let uniq := ((dashboardFiltered jobName data).map JobSummary.status).dedup
  firstPresent statusPriority uniq

/-- The statuses the aggregation looks at: those of the (possibly
filtered) dashboard items. -/
def dashStatuses (jobName : Option String) (data : List JobSummary) :
    List String :=
  (dashboardFiltered jobName data).map JobSummary.status

/-- Severity rank used to state "most severe first": FAIL before WARN
before ABORTED before OK; anything else (an UNKNOWN status) ranks last. -/
def sevRank : String → Nat
  | "FAIL" => 0
  | "WARN" => 1
  | "ABORTED" => 2
  | "OK" => 3
  | _ => 4

/-- Helper: `colorStatus` evaluated through the value of the `_anime` strip. -/
theorem colorStatus_lookup (t c : List Char) (h : removeFirst animePat t = c) :
    colorStatus t = (match List.lookup c colorTable with
      | some s => ColorResult.str s
      | none =>
        if c ∈ protoProps then ColorResult.inherited c
        else ColorResult.str (c.map Char.toUpper)) := by
  simp only [colorStatus]
  rw [h]

/-- Helper: a token that is none of the five known keys misses the `STATUS` table. -/
theorem lookup_colorTable_none (c : List Char)
    (h : c ∉ ["blue".toList, "green".toList, "grey".toList,
              "red".toList, "yellow".toList]) :
    List.lookup c colorTable = none := by
  simp only [List.mem_cons, List.not_mem_nil, or_false, not_or] at h
  obtain ⟨h1, h2, h3, h4, h5⟩ := h
  simp only [colorTable, List.lookup, beq_false_of_ne h1, beq_false_of_ne h2,
    beq_false_of_ne h3, beq_false_of_ne h4, beq_false_of_ne h5]

/-- C5 counterexample: the claim fails at two concrete tokens.  It says
classify strips `_anime` only as a suffix, but on `"_animered"` (no
`_anime` suffix) the code strips the first occurrence anyway and returns
FAIL where the claim's reading returns UNKNOWN of the uppercased token
unchanged.  And it says every unknown token maps to UNKNOWN of the
uppercased token, but on `"constructor"` the property access finds the
truthy inherited `Object.prototype.constructor` and the code returns that
member, not the string "CONSTRUCTOR" the claim's reading produces. -/
theorem colorStatus_claim_cex :
    colorStatus "_animered".toList = ColorResult.str "FAIL".toList ∧
    classifyClaimed "_animered".toList = "_ANIMERED".toList ∧
    colorStatus "_animered".toList ≠ ColorResult.str (classifyClaimed "_animered".toList) ∧
    colorStatus "constructor".toList = ColorResult.inherited "constructor".toList ∧
    classifyClaimed "constructor".toList = "CONSTRUCTOR".toList ∧
    colorStatus "constructor".toList ≠ ColorResult.str (classifyClaimed "constructor".toList) := by
  exact ⟨by decide, by decide, by decide, by decide, by decide, by decide⟩

/-- C5 (amended): classify strips the first occurrence of `_anime` anywhere in
the token (not only a suffix) and then maps blue and green to OK, grey to
ABORTED, red to FAIL, yellow to WARN; a stripped token that names an
inherited `Object.prototype` member (constructor, toString, __proto__, ...)
yields that truthy inherited property instead of a status string; any other
token maps to UNKNOWN carrying the uppercased stripped token; in particular
classify("blue") = OK, classify("red_anime") = FAIL, classify("purple") =
UNKNOWN("PURPLE"). -/
theorem colorStatus_classify (t : List Char) :
    ((removeFirst animePat t = "blue".toList ∨ removeFirst animePat t = "green".toList) →
        colorStatus t = ColorResult.str "OK".toList) ∧
    (removeFirst animePat t = "grey".toList → colorStatus t = ColorResult.str "ABORTED".toList) ∧
    (removeFirst animePat t = "red".toList → colorStatus t = ColorResult.str "FAIL".toList) ∧
    (removeFirst animePat t = "yellow".toList → colorStatus t = ColorResult.str "WARN".toList) ∧
    (removeFirst animePat t ∉ ["blue".toList, "green".toList, "grey".toList,
        "red".toList, "yellow".toList] →
      removeFirst animePat t ∈ protoProps →
        colorStatus t = ColorResult.inherited (removeFirst animePat t)) ∧
    (removeFirst animePat t ∉ ["blue".toList, "green".toList, "grey".toList,
        "red".toList, "yellow".toList] →
      removeFirst animePat t ∉ protoProps →
        colorStatus t = ColorResult.str ((removeFirst animePat t).map Char.toUpper)) ∧
    colorStatus "blue".toList = ColorResult.str "OK".toList ∧
    colorStatus "red_anime".toList = ColorResult.str "FAIL".toList ∧
    colorStatus "purple".toList = ColorResult.str "PURPLE".toList := by
  refine ⟨?_, ?_, ?_, ?_, ?_, ?_, by decide, by decide, by decide⟩
  · rintro (h | h) <;> rw [colorStatus_lookup t _ h] <;> decide
  · intro h; rw [colorStatus_lookup t _ h]; decide
  · intro h; rw [colorStatus_lookup t _ h]; decide
  · intro h; rw [colorStatus_lookup t _ h]; decide
  · intro h hp
    rw [colorStatus_lookup t _ rfl, lookup_colorTable_none _ h]
    simp [hp]
  · intro h hnp
    rw [colorStatus_lookup t _ rfl, lookup_colorTable_none _ h]
    simp [hnp]

/-- C6: the dashboard aggregation (optionally restricted to the jobs matching
the filter name) returns `none` exactly when none of the four known statuses
is present (empty input, no filter match, or only UNKNOWN statuses); any
status it returns is present, known, and of minimal severity rank by the
fixed priority FAIL > WARN > ABORTED > OK; and an input containing WARN but
not FAIL yields WARN (in particular WARN + ABORTED without FAIL). -/
theorem dashboardStatus_aggregate (filt : Option String) (data : List JobSummary) :
    (dashboardStatus filt data = none ↔
      ("FAIL" ∉ dashStatuses filt data ∧ "WARN" ∉ dashStatuses filt data ∧
       "ABORTED" ∉ dashStatuses filt data ∧ "OK" ∉ dashStatuses filt data)) ∧
    (∀ s, dashboardStatus filt data = some s →
      s ∈ dashStatuses filt data ∧ s ∈ statusPriority ∧
      ∀ t ∈ dashStatuses filt data, t ∈ statusPriority → sevRank s ≤ sevRank t) ∧
    ("WARN" ∈ dashStatuses filt data → "FAIL" ∉ dashStatuses filt data →
      dashboardStatus filt data = some "WARN") := by
  have e : dashboardStatus filt data =
      firstPresent statusPriority ((dashStatuses filt data).dedup) := rfl
  rw [e]
  simp only [statusPriority, firstPresent, List.mem_dedup]
  split_ifs with hF hW hA hO
  · refine ⟨by simp [hF], ?_, ?_⟩
    · intro s hs
      obtain rfl : "FAIL" = s := by simpa using hs
      refine ⟨hF, by simp [statusPriority], ?_⟩
      intro t ht hpt
      have h0 : sevRank "FAIL" = 0 := rfl
      rw [h0]
      exact Nat.zero_le _
    · intro _ hF'
      exact absurd hF hF'
  · refine ⟨by simp [hW], ?_, fun _ _ => rfl⟩
    intro s hs
    obtain rfl : "WARN" = s := by simpa using hs
    refine ⟨hW, by simp [statusPriority], ?_⟩
    intro t ht hpt
    simp only [statusPriority, List.mem_cons, List.not_mem_nil, or_false] at hpt
    rcases hpt with rfl | rfl | rfl | rfl
    · exact absurd ht hF
    · exact Nat.le_refl _
    · decide
    · decide
  · refine ⟨by simp [hA], ?_, ?_⟩
    · intro s hs
      obtain rfl : "ABORTED" = s := by simpa using hs
      refine ⟨hA, by simp [statusPriority], ?_⟩
      intro t ht hpt
      simp only [statusPriority, List.mem_cons, List.not_mem_nil, or_false] at hpt
      rcases hpt with rfl | rfl | rfl | rfl
      · exact absurd ht hF
      · exact absurd ht hW
      · exact Nat.le_refl _
      · decide
    · intro hW' _
      exact absurd hW' hW
  · refine ⟨by simp [hO], ?_, ?_⟩
    · intro s hs
      obtain rfl : "OK" = s := by simpa using hs
      refine ⟨hO, by simp [statusPriority], ?_⟩
      intro t ht hpt
      simp only [statusPriority, List.mem_cons, List.not_mem_nil, or_false] at hpt
      rcases hpt with rfl | rfl | rfl | rfl
      · exact absurd ht hF
      · exact absurd ht hW
      · exact absurd ht hA
      · exact Nat.le_refl _
    · intro hW' _
      exact absurd hW' hW
  · refine ⟨by simp [hF, hW, hA, hO], ?_, ?_⟩
    · intro s hs
      simp at hs
    · intro hW' _
      exact absurd hW' hW

/-! ## Console stream engine (`Jenkins.prototype.consoleStream`, lines 123-185)

The polling loop is driven by `async.whilst`: the test reads the current
response's `x-more-data` header; the body issues one `request.get` with
query string `start = parseInt(x-text-size)` of the current response and,
on success, replaces the current response, emits its body when non-empty
and re-runs the test after the poll interval; the final callback emits
`end` on the stream and then invokes the completion callback with the
error, if any.  A response is modelled by the three fields the loop reads,
and a poll by its scripted outcome (a response, or a transport error). -/

/-- The fields of an HTTP response the console loop reads: the body, the
`x-more-data === 'true'` flag and the parsed `x-text-size` header. -/
structure ConsoleResp where
  body : String
  moreData : Bool
  textSize : Nat
  deriving DecidableEq

/-- The outcome of one scripted `request.get` poll. -/
inductive PollResult where
  | ok (r : ConsoleResp)
  | err (e : String)
  deriving DecidableEq

/-- One observable event of a console-stream execution, in order: a poll
request issued with its start offset, a `data` emission, the `end`
emission, or the completion callback invoked with its error argument. -/
inductive ConsoleEv where
  | req (start : Nat)
  | data (chunk : String)
  | ended
  | cb (err : Option String)
  deriving DecidableEq

/-- The `async.whilst` loop of `consoleStream` (lines 141-170), given the
current response `cur` and the scripted outcomes of the successive
`request.get` polls.  When the script runs out while more data is pending,
the issued poll never answers and the execution stays pending: no further
events (the last branch below models this by stopping after the `req`
event). -/
def consoleWhilst : ConsoleResp → List PollResult → List ConsoleEv
  | cur, [] =>
    if cur.moreData then [ConsoleEv.req cur.textSize]
    else [ConsoleEv.ended, ConsoleEv.cb none]
  | cur, pr :: rest =>
    if cur.moreData then
      ConsoleEv.req cur.textSize ::
        (match pr with
         | PollResult.ok r =>
           (if r.body = "" then [] else [ConsoleEv.data r.body]) ++ consoleWhilst r rest
         | PollResult.err e => [ConsoleEv.ended, ConsoleEv.cb (some e)])
    else [ConsoleEv.ended, ConsoleEv.cb none]

/-- `consoleStream`'s event trace from the success handler on (lines
136-171): the initial request is issued with `start = 0` (line 134); its
response `r0` enters `_success`, which emits the body when non-empty and
starts the `async.whilst` loop. -/
def consoleTrace (r0 : ConsoleResp) (script : List PollResult) : List ConsoleEv :=
  ConsoleEv.req 0 ::
    ((if r0.body = "" then [] else [ConsoleEv.data r0.body]) ++ consoleWhilst r0 script)

/-- The start offsets of the requests issued during a trace, in order. -/
def reqStarts (t : List ConsoleEv) : List Nat :=
  t.filterMap fun ev =>
    match ev with
    | ConsoleEv.req n => some n
    | _ => none

/-- The completion-callback invocations of a trace, in order, each with its
error argument. -/
def cbCalls (t : List ConsoleEv) : List (Option String) :=
  t.filterMap fun ev =>
    match ev with
    | ConsoleEv.cb e => some e
    | _ => none

/-- The events a consumer of the returned stream observes: the `data`
emissions and the `end` emission, in order. -/
def streamEvents (t : List ConsoleEv) : List ConsoleEv :=
  t.filter fun ev =>
    match ev with
    | ConsoleEv.data _ => true
    | ConsoleEv.ended => true
    | _ => false

/-- C3: for the scripted response sequence of a first response with body "a",
more-data true, text-size 10, and a second response with body "b",
more-data false, the full trace is request(start 0), data("a"),
request(start 10), data("b"), end, completion callback with no error: the
consumer observes [data("a"), data("b"), end] in that order, exactly 2
requests are issued, and the second uses start-offset 10 taken from the
first response's text-size header. -/
theorem consoleStream_script_trace :
    consoleTrace ⟨"a", true, 10⟩ [PollResult.ok ⟨"b", false, 0⟩] =
      [ConsoleEv.req 0, ConsoleEv.data "a", ConsoleEv.req 10, ConsoleEv.data "b",
       ConsoleEv.ended, ConsoleEv.cb none] ∧
    streamEvents (consoleTrace ⟨"a", true, 10⟩ [PollResult.ok ⟨"b", false, 0⟩]) =
      [ConsoleEv.data "a", ConsoleEv.data "b", ConsoleEv.ended] ∧
    reqStarts (consoleTrace ⟨"a", true, 10⟩ [PollResult.ok ⟨"b", false, 0⟩]) = [0, 10] ∧
    (reqStarts (consoleTrace ⟨"a", true, 10⟩ [PollResult.ok ⟨"b", false, 0⟩])).length = 2 ∧
    cbCalls (consoleTrace ⟨"a", true, 10⟩ [PollResult.ok ⟨"b", false, 0⟩]) = [none] := by
  decide

/-- Helper: once the loop hits a scripted transport error, the remaining
script is never consulted, exactly one completion callback carrying that
error occurs, one request per preceding successful poll plus the failing
one is issued, and the trace ends with the callback. -/
theorem consoleWhilst_err (e : String) : ∀ (pre : List ConsoleResp) (cur : ConsoleResp),
    cur.moreData = true → (∀ r ∈ pre, r.moreData = true) →
    ∃ evs : List ConsoleEv,
      (∀ rest : List PollResult,
        consoleWhilst cur (pre.map PollResult.ok ++ PollResult.err e :: rest) = evs) ∧
      cbCalls evs = [some e] ∧ (reqStarts evs).length = pre.length + 1 ∧
      evs.getLast? = some (ConsoleEv.cb (some e)) := by
  intro pre
  induction pre with
  | nil =>
    intro cur h0 _
    refine ⟨[ConsoleEv.req cur.textSize, ConsoleEv.ended, ConsoleEv.cb (some e)], ?_, rfl, rfl, rfl⟩
    intro rest
    simp [consoleWhilst, h0]
  | cons p pre' ih =>
    intro cur h0 hp
    have hpMore : p.moreData = true := hp p (by simp)
    obtain ⟨evs', hEq', hCb', hReq', hLast'⟩ :=
      ih p hpMore (fun r hr => hp r (by simp [hr]))
    have hne : evs' ≠ [] := by
      intro h
      rw [h] at hLast'
      simp at hLast'
    refine ⟨ConsoleEv.req cur.textSize ::
      ((if p.body = "" then [] else [ConsoleEv.data p.body]) ++ evs'), ?_, ?_, ?_, ?_⟩
    · intro rest
      simp only [List.map_cons, List.cons_append, consoleWhilst, h0, if_true, List.append_eq]
      rw [hEq' rest]
    · by_cases hb : p.body = "" <;> simp [hb, cbCalls, List.filterMap_append] at hCb' ⊢ <;>
        simpa [cbCalls] using hCb'
    · by_cases hb : p.body = "" <;>
        simp [hb, reqStarts, List.filterMap_append, List.length_append] at hReq' ⊢ <;>
        simpa [reqStarts] using hReq'
    · rw [show ConsoleEv.req cur.textSize ::
          ((if p.body = "" then [] else [ConsoleEv.data p.body]) ++ evs') =
          (ConsoleEv.req cur.textSize ::
            (if p.body = "" then [] else [ConsoleEv.data p.body])) ++ evs' by simp]
      rw [List.getLast?_append, hLast']
      rfl

/-- C4: in a console-stream execution whose mid-stream poll fails with a
transport error, the trace does not depend on anything scripted after the
failing poll (no further polls are issued), the completion callback is
invoked exactly once and receives that error, and the number of issued
requests is the initial one plus the successful polls plus the failing
one. -/
theorem consoleStream_error_stops (r0 : ConsoleResp) (pre : List ConsoleResp)
    (e : String) (rest rest' : List PollResult)
    (h0 : r0.moreData = true) (hp : ∀ r ∈ pre, r.moreData = true) :
    consoleTrace r0 (pre.map PollResult.ok ++ PollResult.err e :: rest) =
      consoleTrace r0 (pre.map PollResult.ok ++ PollResult.err e :: rest') ∧
    cbCalls (consoleTrace r0 (pre.map PollResult.ok ++ PollResult.err e :: rest)) =
      [some e] ∧
    (reqStarts (consoleTrace r0 (pre.map PollResult.ok ++ PollResult.err e :: rest))).length =
      pre.length + 2 ∧
    (consoleTrace r0 (pre.map PollResult.ok ++ PollResult.err e :: rest)).getLast? =
      some (ConsoleEv.cb (some e)) := by
  obtain ⟨evs, hEq, hCb, hReq, hLast⟩ := consoleWhilst_err e pre r0 h0 hp
  have hne : evs ≠ [] := by
    intro h
    rw [h] at hLast
    simp at hLast
  refine ⟨?_, ?_, ?_, ?_⟩
  · simp only [consoleTrace, hEq]
  · by_cases hb : r0.body = "" <;>
      simp [consoleTrace, hEq, hb, cbCalls, List.filterMap_append] at hCb ⊢ <;>
      simpa [cbCalls] using hCb
  · by_cases hb : r0.body = "" <;>
      simp [consoleTrace, hEq, hb, reqStarts, List.filterMap_append] at hReq ⊢ <;>
      simpa [reqStarts] using hReq
  · rw [show consoleTrace r0 (pre.map PollResult.ok ++ PollResult.err e :: rest) =
        (ConsoleEv.req 0 :: (if r0.body = "" then [] else [ConsoleEv.data r0.body])) ++ evs by
          simp [consoleTrace, hEq]]
    rw [List.getLast?_append, hLast]
    rfl

/-- Helper: inside the `async.whilst` loop, every completion-callback event
is immediately preceded by the `end` emission. -/
theorem consoleWhilst_cb_after_end : ∀ (script : List PollResult) (cur : ConsoleResp)
    (x : Option String), ConsoleEv.cb x ∈ consoleWhilst cur script →
    ∃ p, consoleWhilst cur script = p ++ [ConsoleEv.ended, ConsoleEv.cb x] := by
  intro script
  induction script with
  | nil =>
    intro cur x hmem
    by_cases h0 : cur.moreData = true
    · simp [consoleWhilst, h0] at hmem
    · simp only [consoleWhilst, h0, if_neg, Bool.not_eq_true] at hmem ⊢
      simp at hmem
      refine ⟨[], by simp [hmem, consoleWhilst, h0]⟩
  | cons pr rest ih =>
    intro cur x hmem
    by_cases h0 : cur.moreData = true
    · cases pr with
      | ok r =>
        simp only [consoleWhilst, h0, if_true, List.mem_cons, List.mem_append] at hmem
        rcases hmem with h | h | h
        · exact absurd h (by simp)
        · by_cases hb : r.body = "" <;> simp [hb] at h
        · obtain ⟨p, hp⟩ := ih r x h
          refine ⟨ConsoleEv.req cur.textSize ::
            ((if r.body = "" then [] else [ConsoleEv.data r.body]) ++ p), ?_⟩
          simp only [consoleWhilst, h0, if_true, hp]
          simp
      | err e =>
        simp only [consoleWhilst, h0, if_true] at hmem ⊢
        simp at hmem
        refine ⟨[ConsoleEv.req cur.textSize], by simp [hmem]⟩
    · simp only [consoleWhilst, h0, if_neg, Bool.not_eq_true] at hmem ⊢
      simp at hmem
      refine ⟨[], by simp [hmem]⟩

/-- C9: on every termination of a console-stream execution — error or
success — the `end` event is emitted on the stream immediately before the
completion callback is invoked, so an error termination still emits `end`
before the callback receives the error. -/
theorem consoleStream_end_before_cb (r0 : ConsoleResp) (script : List PollResult)
    (x : Option String) (hmem : ConsoleEv.cb x ∈ consoleTrace r0 script) :
    ∃ p, consoleTrace r0 script = p ++ [ConsoleEv.ended, ConsoleEv.cb x] := by
  simp only [consoleTrace, List.mem_cons, List.mem_append] at hmem
  rcases hmem with h | h | h
  · exact absurd h (by simp)
  · by_cases hb : r0.body = "" <;> simp [hb] at h
  · obtain ⟨p, hp⟩ := consoleWhilst_cb_after_end script r0 x h
    refine ⟨ConsoleEv.req 0 ::
      ((if r0.body = "" then [] else [ConsoleEv.data r0.body]) ++ p), ?_⟩
    simp only [consoleTrace, hp]
    simp

/-- Witness for C4 at a concrete failing script. -/
theorem consoleStream_error_stops_w :
    cbCalls (consoleTrace ⟨"a", true, 10⟩
      (List.map PollResult.ok [] ++ PollResult.err "boom" :: [PollResult.ok ⟨"x", false, 0⟩])) =
      [some "boom"] :=
  (consoleStream_error_stops ⟨"a", true, 10⟩ [] "boom" [PollResult.ok ⟨"x", false, 0⟩] []
    (by decide) (by simp)).2.1

/-- Witness for C9 at a concrete failing script. -/
theorem consoleStream_end_before_cb_w :
    ∃ p, consoleTrace ⟨"a", true, 10⟩ [PollResult.err "boom"] =
      p ++ [ConsoleEv.ended, ConsoleEv.cb (some "boom")] :=
  consoleStream_end_before_cb ⟨"a", true, 10⟩ [PollResult.err "boom"] (some "boom") (by decide)

/-! ## Executor running-job extraction (`Jenkins.prototype.executor`, lines 291-317) -/

/-- Whether `pat` occurs as a contiguous substring of the list. -/
def occursIn (pat : List Char) : List Char → Bool
  | [] => pat.isEmpty
  | c :: rest => pat.isPrefixOf (c :: rest) || occursIn pat rest

/-- JavaScript `s.replace(/.*PAT/, '')` for a literal pattern `PAT`: the
greedy `.*` makes the single replaced match run up to the end of the LAST
occurrence of `PAT`, so the replacement leaves the remainder after that
last occurrence; `none` when `PAT` does not occur (the string is then left
unchanged by `replace`).  (`.` does not match a newline in JavaScript; the
URLs this is applied to contain none.) -/
def lastMatchRem (pat : List Char) : List Char → Option (List Char)
  | [] => if pat.isEmpty then some [] else none
  | c :: rest =>
    match lastMatchRem pat rest with
    | some r => some r
    | none =>
      if pat.isPrefixOf (c :: rest) then some ((c :: rest).drop pat.length)
      else none

/-- The literal pattern of the `\/job\/` part of the regex at line 306. -/
def jobPat : List Char := "/job/".toList

/-- Line 306: `url.replace(/.*\/job\//, '').replace(/\/.*/, '')` — drop
everything through the last `/job/`, then truncate at the first `/` (the
second replace removes the single greedy match starting at the first
slash). -/
def jobNameOfUrl (url : List Char) : List Char :=
  ((lastMatchRem jobPat url).getD url).takeWhile (fun c => c != '/')

/-- Lines 305-307: a non-idle executor's `name` field is extracted from its
current executable URL; an idle executor gets no name (`undefined`). -/
def executorRunningName (idle : Bool) (url : List Char) : Option (List Char) :=
  if idle then none else some (jobNameOfUrl url)

/-- Helper: a list is a `isPrefixOf` of itself followed by anything. -/
theorem isPrefixOf_append_self (l t : List Char) : l.isPrefixOf (l ++ t) = true := by
  induction l with
  | nil => simp [List.isPrefixOf]
  | cons c l ih => simp [List.isPrefixOf, ih]

/-- Helper: no occurrence, no match. -/
theorem lastMatchRem_of_not_occurs (pat : List Char) :
    ∀ xs, occursIn pat xs = false → lastMatchRem pat xs = none := by
  intro xs
  induction xs with
  | nil =>
    intro h
    simp only [occursIn] at h
    simp [lastMatchRem, h]
  | cons c rest ih =>
    intro h
    simp only [occursIn, Bool.or_eq_false_iff] at h
    simp [lastMatchRem, ih h.2, h.1]

/-- Helper: when the pattern occurs nowhere after the shown occurrence, the
greedy match ends at that occurrence and leaves `tail`. -/
theorem lastMatchRem_append (pat tail : List Char) (hne : pat ≠ [])
    (hno : occursIn pat (pat.drop 1 ++ tail) = false) :
    ∀ pre, lastMatchRem pat (pre ++ (pat ++ tail)) = some tail := by
  intro pre
  induction pre with
  | nil =>
    obtain ⟨c, pr, rfl⟩ : ∃ c pr, pat = c :: pr := by
      cases pat with
      | nil => exact absurd rfl hne
      | cons c pr => exact ⟨c, pr, rfl⟩
    have hno' : occursIn (c :: pr) (pr ++ tail) = false := by
      simpa using hno
    have h1 : lastMatchRem (c :: pr) (pr ++ tail) = none :=
      lastMatchRem_of_not_occurs _ _ hno'
    have h2 : (c :: pr).isPrefixOf (c :: (pr ++ tail)) = true := by
      rw [← List.cons_append]
      exact isPrefixOf_append_self _ _
    simp only [List.nil_append, List.cons_append, lastMatchRem, List.append_eq, h1, h2]
    rw [← List.cons_append]
    simp [List.drop_left]
  | cons p pre' ih =>
    simp only [List.cons_append, lastMatchRem, List.append_eq, ih]

/-- Helper: `takeWhile` keeps a slash-free block and stops at the slash. -/
theorem takeWhile_stops_at_slash (name rest : List Char) (h : '/' ∉ name) :
    (name ++ '/' :: rest).takeWhile (fun c => c != '/') = name := by
  induction name with
  | nil => simp [List.takeWhile]
  | cons c name' ih =>
    simp only [List.mem_cons, not_or] at h
    have hc : (c != '/') = true := by
      simp only [bne_iff_ne, ne_eq]
      exact fun hc => h.1 hc.symm
    simp [List.takeWhile, hc, ih h.2]

/-- C1 counterexample: the claim says the running-job name for the nested
url ".../job/folder/job/myjob/3/" is "folder" (the segment after the FIRST
`/job/`); the code's greedy regex takes the segment after the LAST `/job/`,
which is "myjob". -/
theorem executor_nested_cex :
    executorRunningName false "http://localhost:8080/job/folder/job/myjob/3/".toList =
      some "myjob".toList ∧
    "myjob".toList ≠ "folder".toList := by
  exact ⟨by decide, by decide⟩

/-- C1 (amended): for every non-idle executor, the running-job name is the
segment after the LAST `/job/` of the current executable URL: whenever the
URL has the form `pre ++ "/job/" ++ name ++ "/" ++ rest` with no further
`/job/` occurrence from that segment on and no slash in `name`, the
extracted name is `name`; url ".../job/myjob/3/" still yields "myjob",
while the nested url ".../job/folder/job/myjob/3/" yields "myjob", not
"folder". -/
theorem executor_name_after_last_job (pre name rest : List Char)
    (hno : occursIn jobPat (jobPat.drop 1 ++ (name ++ '/' :: rest)) = false)
    (hslash : '/' ∉ name) :
    executorRunningName false (pre ++ (jobPat ++ (name ++ '/' :: rest))) = some name := by
  simp only [executorRunningName, if_neg, Bool.false_eq_true, not_false_iff, jobNameOfUrl]
  rw [lastMatchRem_append jobPat (name ++ '/' :: rest) (by decide) hno pre]
  simp only [Option.getD_some]
  rw [takeWhile_stops_at_slash name rest hslash]

/-- Witness for C1 at the url "http://localhost:8080/job/myjob/3/". -/
theorem executor_name_after_last_job_w :
    executorRunningName false
      ("http://localhost:8080".toList ++ (jobPat ++ ("myjob".toList ++ '/' :: "3/".toList))) =
      some "myjob".toList :=
  executor_name_after_last_job "http://localhost:8080".toList "myjob".toList "3/".toList
    (by decide) (by decide)

/-! ## Discovery client (`Jenkins.prototype.discover`, lines 253-284)

The source registers a `message` handler on the UDP socket (closes the
socket, parses the datagram, then invokes `cb` with the parsed result) and
schedules a 5000 ms timer whose handler invokes `cb` with a not-found
error.  The source contains no `clearTimeout`, so the scheduled timer
always fires, whether or not a reply arrived first; and the timer handler
does not close the socket.  The model runs the registered reactions over
the events in their arrival order. -/

/-- One invocation of discover's caller callback. -/
inductive DiscoverCb where
  | reply
  | timeoutError
  deriving DecidableEq

/-- An external event delivered to the reactions discover registered. -/
inductive DiscoverEvent where
  | messageArrives
  | timerFires
  deriving DecidableEq

/-- The state discover's reactions touch: whether the socket is still open,
and the callback invocations so far, in order. -/
structure DiscoverState where
  socketOpen : Bool
  cbCalls : List DiscoverCb
  deriving DecidableEq

/-- One reaction step (lines 266-272 for `message`, lines 281-283 for the
timer): the message handler closes the socket and invokes `cb` with the
parsed reply (a datagram on a closed socket is no longer delivered); the
timer handler invokes `cb` with the not-found error and neither cancels
anything nor closes the socket. -/
def discoverStep (s : DiscoverState) : DiscoverEvent → DiscoverState
  | DiscoverEvent.messageArrives =>
    if s.socketOpen then ⟨false, s.cbCalls ++ [DiscoverCb.reply]⟩ else s
  | DiscoverEvent.timerFires =>
    ⟨s.socketOpen, s.cbCalls ++ [DiscoverCb.timeoutError]⟩

/-- A discover execution over the events in arrival order, from the state
after `discover` returns (socket open, no callback yet).  Since the source
never cancels the 5000 ms timer, `timerFires` occurs in every execution; a
reply before the timeout yields `[messageArrives, timerFires]`, no reply
yields `[timerFires]`. -/
def discoverRun (events : List DiscoverEvent) : DiscoverState :=
  events.foldl discoverStep ⟨true, []⟩

/-- C2: the claim says the callback is invoked exactly once — the reply
cancelling the pending timeout — and that the socket is closed on either
path.  The code cancels nothing: when a reply arrives before the 5-second
timer, the callback is invoked a second time when the timer fires; and on
the pure-timeout path the socket is never closed. -/
theorem discover_timer_not_cancelled :
    (discoverRun [DiscoverEvent.messageArrives, DiscoverEvent.timerFires]).cbCalls =
      [DiscoverCb.reply, DiscoverCb.timeoutError] ∧
    ((discoverRun [DiscoverEvent.messageArrives, DiscoverEvent.timerFires]).cbCalls).length = 2 ∧
    (discoverRun [DiscoverEvent.timerFires]).socketOpen = true := by
  exact ⟨rfl, rfl, rfl⟩

/-! ## The shared mutable options object (constructor lines 28-34) and the
operations' request set-up

Every operation mutates `this.opts` — the one object created by the
constructor — before handing it to `bag.request`: query strings, headers
and body are overwritten (or left over from an earlier call), and status
handlers are installed into the one shared handler table.  Closures are
modelled as tags; `runHandler` gives the callback behaviour of the tags
the claims exercise. -/

/-- A status-code handler installed by some operation, as a tag naming the
closure in the source. -/
inductive HandlerTag where
  | authFail
  | authRequire
  | buildSuccess
  | buildNotFound (job : String)
  | buildParamsRequire (job : String)
  | consoleSuccess (job : String)
  | consoleNotFound (job : String)
  | stopSuccess
  | stopNotFound (job : String)
  | dashboardSuccess
  | executorSuccess
  | jobSuccess (job : String)
  | jobNotFound (job : String)
  | queueSuccess
  | versionSuccess
  | viewPassThrough
  | viewHtmlError
  deriving DecidableEq

/-- The query strings an operation stores into `this.opts.queryStrings`. -/
inductive QueryStrings where
  | buildQS (token : String) (params : List (String × Option String))
  | startQS (n : Nat)
  | depthQS (n : Nat)
  | nameQS (s : String)
  deriving DecidableEq

/-- The fields of `this.opts` the operations mutate: the handler table
(shared, updated in place), the query strings, and the headers/body the
view module sets. -/
structure JenkinsOpts where
  handlers : Nat → Option HandlerTag
  queryStrings : Option QueryStrings
  headers : Option String
  body : Option String

/-- An HTTP request as handed to the transport adapter: method, URL, and
the (shared) options object at call time. -/
structure RequestRec where
  method : String
  url : String
  opts : JenkinsOpts

/-- `this.opts.handlers[code] = t`: in-place update of the shared table. -/
def setHandler (h : Nat → Option HandlerTag) (code : Nat) (t : HandlerTag) :
    Nat → Option HandlerTag :=
  fun c => if c = code then some t else h c

/-- The constructor's options (lines 28-34): handlers for 401 and 403 only;
no query strings, headers or body yet. -/
def initOpts : JenkinsOpts :=
  ⟨fun c =>
    if c = 401 then some HandlerTag.authFail
    else if c = 403 then some HandlerTag.authRequire
    else none,
   none, none, none⟩

/-- `build`'s parameter parsing (lines 45-53): split the `&`-joined string
into `key=value` pairs; `keyVal[1]` is missing when a pair has no `=`; the
empty or absent string is falsy, leaving the parameter list empty. -/
def parseParams : Option String → List (String × Option String)
  | none => []
  | some s =>
    if s = "" then []
    else
      (s.splitOn "&").map fun p =>
        match p.splitOn "=" with
        | [] => (p, none)
        | k :: vs => (k, vs.head?)

/-- `Jenkins.prototype.build` (lines 44-74): store the trigger token and
parameter JSON into the shared query strings, install the 200/201/404/405
handlers into the shared table, and POST `/job/<name>/build` with the
shared options. -/
def buildStep (base jobName : String) (params : Option String) (o : JenkinsOpts) :
    JenkinsOpts × RequestRec :=
  let qs := some (QueryStrings.buildQS "nestor" (parseParams params))
  let o1 := { o with queryStrings := qs }
  let h :=
    setHandler
      (setHandler
        (setHandler (setHandler o1.handlers 200 HandlerTag.buildSuccess)
          201 HandlerTag.buildSuccess)
        404 (HandlerTag.buildNotFound jobName))
      405 (HandlerTag.buildParamsRequire jobName)
  let o2 := { o1 with handlers := h }
  (o2, ⟨"post", base ++ "/job/" ++ jobName ++ "/build", o2⟩)

/-- `Jenkins.prototype.dashboard` (lines 227-245): installs only its 200
handler; query strings are not touched. -/
def dashboardStep (base : String) (o : JenkinsOpts) : JenkinsOpts × RequestRec :=
  let o1 := { o with handlers := setHandler o.handlers 200 HandlerTag.dashboardSuccess }
  (o1, ⟨"get", base ++ "/api/json", o1⟩)

/-- `Jenkins.prototype.stop` (lines 205-219): installs 200 and 404
handlers; query strings are not touched. -/
def stopStep (base jobName : String) (o : JenkinsOpts) : JenkinsOpts × RequestRec :=
  let h := setHandler (setHandler o.handlers 200 HandlerTag.stopSuccess) 404 (HandlerTag.stopNotFound jobName)
  let o1 := { o with handlers := h }
  (o1, ⟨"post", base ++ "/job/" ++ jobName ++ "/lastBuild/stop", o1⟩)

/-- `Jenkins.prototype.queue` (lines 357-373): installs only its 200
handler; query strings are not touched. -/
def queueStep (base : String) (o : JenkinsOpts) : JenkinsOpts × RequestRec :=
  let o1 := { o with handlers := setHandler o.handlers 200 HandlerTag.queueSuccess }
  (o1, ⟨"get", base ++ "/queue/api/json", o1⟩)

/-- `Jenkins.prototype.version` (lines 381-394): installs only its 200
handler; query strings are not touched. -/
def versionStep (base : String) (o : JenkinsOpts) : JenkinsOpts × RequestRec :=
  let o1 := { o with handlers := setHandler o.handlers 200 HandlerTag.versionSuccess }
  (o1, ⟨"head", base, o1⟩)

/-- `create` of lib/http/view.js (lines 11-21): sets query strings, headers
and body on the same shared options object and installs its 200/400
handlers into the same shared table (the handler bodies live in
lib/http/util.js, outside the claims). -/
def viewCreateStep (base name config : String) (o : JenkinsOpts) :
    JenkinsOpts × RequestRec :=
  let o1 := { o with queryStrings := some (QueryStrings.nameQS name), headers := some "application/xml", body := some config }
  let h := setHandler (setHandler o1.handlers 200 HandlerTag.viewPassThrough) 400 HandlerTag.viewHtmlError
  let o2 := { o1 with handlers := h }
  (o2, ⟨"post", base ++ "/createView", o2⟩)

/-- The outcome a handler delivers to the operation's callback. -/
inductive HttpOutcome where
  | success (payload : Option String)
  | failure (msg : String)
  deriving DecidableEq

/-- The callback behaviour of the handlers the claims exercise (each is a
closure in the source whose body only builds an error message or calls
`cb()`); the handlers that parse a JSON payload are not exercised by any
claim and yield `none` here. -/
def runHandler : HandlerTag → Option HttpOutcome
  | HandlerTag.authFail =>
    some (HttpOutcome.failure
      "Authentication failed - incorrect username and/or password in Jenkins URL")
  | HandlerTag.authRequire =>
    some (HttpOutcome.failure
      "Jenkins requires authentication - set username and password in Jenkins URL")
  | HandlerTag.buildSuccess => some (HttpOutcome.success none)
  | HandlerTag.buildNotFound j =>
    some (HttpOutcome.failure ("Job " ++ j ++ " does not exist"))
  | HandlerTag.buildParamsRequire j =>
    some (HttpOutcome.failure ("Job " ++ j ++ " requires build parameters"))
  | HandlerTag.stopSuccess => some (HttpOutcome.success none)
  | HandlerTag.stopNotFound j =>
    some (HttpOutcome.failure ("Job " ++ j ++ " does not exist"))
  | HandlerTag.consoleNotFound j =>
    some (HttpOutcome.failure ("Job " ++ j ++ " does not exist"))
  | HandlerTag.jobNotFound j =>
    some (HttpOutcome.failure ("Job " ++ j ++ " does not exist"))
  | _ => none

/-- `bag.request`'s dispatch at its boundary: run the handler registered
for the response status (no registered handler is the adapter's default
failure path, outside these claims). -/
def dispatch (o : JenkinsOpts) (status : Nat) : Option HttpOutcome :=
  match o.handlers status with
  | some t => runHandler t
  | none => none

/-- C7: after `build(jobName, ...)` installs its handlers, a 200 or 201
response completes the callback successfully with no payload, a 404
fails with the job-not-found error naming the job, and a 405 fails with
the parameters-required error naming the job. -/
theorem build_status_mapping (base jobName : String) (params : Option String)
    (o : JenkinsOpts) :
    dispatch (buildStep base jobName params o).1 200 = some (HttpOutcome.success none) ∧
    dispatch (buildStep base jobName params o).1 201 = some (HttpOutcome.success none) ∧
    dispatch (buildStep base jobName params o).1 404 =
      some (HttpOutcome.failure ("Job " ++ jobName ++ " does not exist")) ∧
    dispatch (buildStep base jobName params o).1 405 =
      some (HttpOutcome.failure ("Job " ++ jobName ++ " requires build parameters")) := by
  exact ⟨rfl, rfl, rfl, rfl⟩

/-- C10: all operations mutate the one shared options object: `build`
stores its trigger token and parameter JSON in `queryStrings`, and the
subsequent dashboard/stop/queue/version calls — which never set their own
query strings — issue their requests with build's leftovers still in
place; the handler table is likewise shared and mutated in place by every
operation, so dashboard's request still carries build's 404 handler and
the view module's create adds its handlers to the same table build wrote
into. -/
theorem opts_shared_across_calls (base n cfg jobName : String)
    (params : Option String) (o : JenkinsOpts) :
    ((buildStep base jobName params o).1.queryStrings =
      some (QueryStrings.buildQS "nestor" (parseParams params))) ∧
    (dashboardStep base (buildStep base jobName params o).1).2.opts.queryStrings =
      some (QueryStrings.buildQS "nestor" (parseParams params)) ∧
    (stopStep base jobName (buildStep base jobName params o).1).2.opts.queryStrings =
      some (QueryStrings.buildQS "nestor" (parseParams params)) ∧
    (queueStep base (buildStep base jobName params o).1).2.opts.queryStrings =
      some (QueryStrings.buildQS "nestor" (parseParams params)) ∧
    (versionStep base (buildStep base jobName params o).1).2.opts.queryStrings =
      some (QueryStrings.buildQS "nestor" (parseParams params)) ∧
    (dashboardStep base (buildStep base jobName params o).1).2.opts.handlers 404 =
      some (HandlerTag.buildNotFound jobName) ∧
    (viewCreateStep base n cfg (buildStep base jobName params o).1).1.handlers 405 =
      some (HandlerTag.buildParamsRequire jobName) ∧
    (viewCreateStep base n cfg (buildStep base jobName params o).1).1.handlers 400 =
      some HandlerTag.viewHtmlError := by
  exact ⟨rfl, rfl, rfl, rfl, rfl, rfl, rfl, rfl⟩

/-! ## Build-by-criteria (`Jenkins.prototype.buildBy`, lines 83-110)

`buildBy` reads the dashboard; on error it propagates the error, otherwise
it filters the jobs by the criteria and runs `async.each` over them,
calling `build` on every filtered job (the fan-out starts every trigger)
and completing with the first error an iterator reports, or with no error
once all have completed.  The per-job build outcome is modelled by a
function from job name to optional error; `async.each`'s completion is the
first error in callback order (modelled here in list order), `none` when
every trigger succeeds. -/

/-- The filter of `buildBy` (lines 87-91): with a criteria object the job's
status must equal `criteria.status`; with an empty criteria every job
matches. -/
def matchesCriteria (criteria : Option String) (item : JobSummary) : Bool :=
  match criteria with
  | some s => item.status == s
  | none => true

/-- `Jenkins.prototype.buildBy` (lines 83-110) given the dashboard result
and the per-job build outcomes: the list of job names build is triggered
on, and the error the completion callback receives (none on success). -/
def buildByRun (criteria : Option String) (dash : Except String (List JobSummary))
    (buildErr : String → Option String) : List String × Option String :=
  match dash with
  | Except.error e => ([], some e)
  | Except.ok data =>
    let ts := (data.filter (matchesCriteria criteria)).map JobSummary.name
    (ts, (ts.filterMap buildErr).head?)

/-- Helper: the first error of a fan-out is absent exactly when every
member succeeds. -/
theorem head?_filterMap_eq_none_iff {α β : Type} (f : α → Option β) (l : List α) :
    (l.filterMap f).head? = none ↔ ∀ a ∈ l, f a = none := by
  induction l with
  | nil => simp
  | cons a l ih =>
    cases hfa : f a with
    | none => simp [List.filterMap_cons, hfa, ih]
    | some b => simp [List.filterMap_cons, hfa]

/-- C8: `buildBy` triggers a build on exactly the dashboard jobs whose
status matches the criteria (on every job when the criteria is empty), and
its completion callback receives no error exactly when every triggered
build succeeded, and otherwise an error that one of the triggered builds
reported (the first to surface). -/
theorem buildBy_triggers (criteria : Option String) (data : List JobSummary)
    (berr : String → Option String) :
    ((buildByRun criteria (Except.ok data) berr).1 =
      (data.filter (matchesCriteria criteria)).map JobSummary.name) ∧
    (∀ n, n ∈ (buildByRun criteria (Except.ok data) berr).1 ↔
      ∃ j ∈ data, matchesCriteria criteria j = true ∧ j.name = n) ∧
    (criteria = none →
      (buildByRun criteria (Except.ok data) berr).1 = data.map JobSummary.name) ∧
    ((buildByRun criteria (Except.ok data) berr).2 = none ↔
      ∀ n ∈ (buildByRun criteria (Except.ok data) berr).1, berr n = none) ∧
    (∀ e, (buildByRun criteria (Except.ok data) berr).2 = some e →
      ∃ n ∈ (buildByRun criteria (Except.ok data) berr).1, berr n = some e) := by
  refine ⟨rfl, ?_, ?_, ?_, ?_⟩
  · intro n
    simp only [buildByRun, List.mem_map, List.mem_filter]
    constructor
    · rintro ⟨j, ⟨hj, hm⟩, hn⟩
      exact ⟨j, hj, hm, hn⟩
    · rintro ⟨j, hj, hm, hn⟩
      exact ⟨j, ⟨hj, hm⟩, hn⟩
  · rintro rfl
    have hall : List.filter (matchesCriteria none) data = data :=
      List.filter_eq_self.mpr (fun a _ => rfl)
    simp [buildByRun, hall]
  · exact head?_filterMap_eq_none_iff berr _
  · intro e he
    have h2 : (((buildByRun criteria (Except.ok data) berr).1).filterMap berr).head? =
        some e := he
    have hmem : e ∈ ((buildByRun criteria (Except.ok data) berr).1).filterMap berr :=
      List.mem_of_mem_head? (by rw [h2]; rfl)
    obtain ⟨n, hn, hbn⟩ := List.mem_filterMap.mp hmem
    exact ⟨n, hn, hbn⟩
